import Mathlib

/-!
Shallow embedding of the cart checkout validation app.

The embedded code:
* `run` — the checkout validation function (src/unnamed/part_000), which
  parses the stored metafield payload as JSON and emits one error per
  cart line whose quantity exceeds the configured limit for its variant.
* the configuration store of the validation-settings extension
  (src/extensions/validation-settings/src/ValidationSettings.js):
  the idempotent metafield-definition bootstrap (`ensureSchema`),
  the payload read (`loadLimitMap`), the wholesale write (`saveLimitMap`),
  and the catalog/persisted-map merge (`createSettings`).

The JavaScript builtins `JSON.parse` / `JSON.stringify` are modelled at the
character level, restricted to the payload shape this app reads and writes:
a flat JSON object mapping string keys to non-negative integer values, with
no whitespace (what `JSON.stringify` emits) and with the two string escapes
`\"` and `\\` that `JSON.stringify` produces on keys without control
characters.  A payload that this restricted parser rejects corresponds to a
payload on which `JSON.parse` throws (for the inputs the claims exercise,
e.g. the raw string `not-json`).
-/

namespace CartValidation

/-- The opening-brace character, written by code point to keep it out of
string literals. -/
def lbraceChar : Char := Char.ofNat 123

/-- The closing-brace character. -/
def rbraceChar : Char := Char.ofNat 125

/-- The double-quote character that delimits JSON strings. -/
def quoteChar : Char := '"'

/-- The backslash character that introduces JSON string escapes. -/
def backslashChar : Char := '\\'

/-- A limits map: the parsed form of the persisted JSON object, a sequence
of (variant identifier, quantity limit) properties in object order. -/
abbrev LimitMap : Type := List (String × Nat)

/-- JavaScript property lookup `configuration[id]` on the parsed object:
the value of the last property with the given key (later duplicate keys in
a JSON text overwrite earlier ones), `none` when the key is absent. -/
def objLookup : LimitMap → String → Option Nat
  | [], _ => none
  | e :: rest, id =>
    match objLookup rest id with
    | some v => some v
    | none => if e.1 = id then some e.2 else none

/-! ### Decimal digits (the number grammar `JSON.stringify` emits) -/

/-- The character for a single decimal digit value. -/
def digChar (d : Nat) : Char := Char.ofNat (48 + d)

/-- Whether a character is a decimal digit. -/
def isDigitChar (c : Char) : Bool := decide (48 ≤ c.toNat) && decide (c.toNat ≤ 57)

/-- Decimal digits of a number, least significant first, fuelled so the
recursion is structural (any fuel at least the number itself suffices). -/
def natToDigitsRevAux : Nat → Nat → List Char
  | 0, _ => []
  | _ + 1, 0 => []
  | fuel + 1, n + 1 => digChar ((n + 1) % 10) :: natToDigitsRevAux fuel ((n + 1) / 10)

/-- Decimal digits of a positive number, least significant first. -/
def natToDigitsRev (n : Nat) : List Char := natToDigitsRevAux n n

/-- Decimal rendering of a natural number, as `JSON.stringify` prints a
non-negative integer. -/
def natToDigits (n : Nat) : List Char :=
  if n = 0 then [digChar 0] else (natToDigitsRev n).reverse

/-- The longest digit prefix of the input, paired with the rest. -/
def takeDigits : List Char → List Char × List Char
  | [] => ([], [])
  | c :: cs =>
    if isDigitChar c then
      let p := takeDigits cs
      (c :: p.1, p.2)
    else ([], c :: cs)

/-- Value of a most-significant-first digit list. -/
def digitsToNat (ds : List Char) : Nat :=
  ds.foldl (fun a c => a * 10 + (c.toNat - 48)) 0

/-- Parse a non-negative decimal integer at the head of the input. -/
def parseNatNum (cs : List Char) : Option (Nat × List Char) :=
  match takeDigits cs with
  | ([], _) => none
  | (ds, rest) => some (digitsToNat ds, rest)

/-! ### JSON strings (keys) -/

/-- The escape `JSON.stringify` applies to one key character: quote and
backslash are prefixed with a backslash, other (non-control) characters are
emitted as themselves. -/
def escapeChar (c : Char) : List Char :=
  if c = quoteChar ∨ c = backslashChar then [backslashChar, c] else [c]

/-- Escape a whole key. -/
def escapeList : List Char → List Char
  | [] => []
  | c :: cs => escapeChar c ++ escapeList cs

/-- Parse the body of a JSON string after its opening quote, undoing the
escapes of `escapeChar`; returns the key and the input after the closing
quote. -/
def parseKeyAux : List Char → List Char → Option (String × List Char)
  | _, [] => none
  | acc, c :: cs =>
    if c = quoteChar then some (String.mk acc.reverse, cs)
    else if c = backslashChar then
      match cs with
      | [] => none
      | e :: cs2 =>
        if e = quoteChar ∨ e = backslashChar then parseKeyAux (e :: acc) cs2 else none
    else parseKeyAux (c :: acc) cs

/-! ### The payload object -/

/-- The characters of one serialized property: `"key":value`. -/
def entryChars (k : String) (n : Nat) : List Char :=
  quoteChar :: (escapeList k.data ++ quoteChar :: ':' :: natToDigits n)

/-- The comma-separated property list `JSON.stringify` emits between the
braces of a non-empty object. -/
def stringifyEntries : LimitMap → List Char
  | [] => []
  | [(k, n)] => entryChars k n
  | (k, n) :: es => entryChars k n ++ ',' :: stringifyEntries es

/-- The serialized payload `JSON.stringify(settings)`: the object's
properties in order between braces, no whitespace. -/
def stringifyLimitMap (m : LimitMap) : String :=
  String.mk (lbraceChar :: (stringifyEntries m ++ [rbraceChar]))

/-- Parse the property list of a non-empty object, consuming the closing
brace; fuelled by an upper bound on the number of properties. -/
def parseEntries : Nat → List Char → Option (LimitMap × List Char)
  | 0, _ => none
  | _ + 1, [] => none
  | fuel + 1, c :: cs1 =>
    if c = quoteChar then
      match parseKeyAux [] cs1 with
      | some (k, cs2) =>
        match cs2 with
        | [] => none
        | c2 :: cs3 =>
          if c2 = ':' then
            match parseNatNum cs3 with
            | some (n, cs4) =>
              match cs4 with
              | [] => none
              | c4 :: cs5 =>
                if c4 = ',' then
                  match parseEntries fuel cs5 with
                  | some (es, rest) => some ((k, n) :: es, rest)
                  | none => none
                else if c4 = rbraceChar then some ([(k, n)], cs5)
                else none
            | none => none
          else none
      | none => none
    else none

/-- The model of `JSON.parse` on the payload shape this app persists: a
flat object of non-negative integer values, no whitespace.  Returns `none`
exactly where the modelled `JSON.parse` call throws a syntax error. -/
def parseLimitMap (s : String) : Option LimitMap :=
  match s.data with
  | [] => none
  | c :: cs =>
    if c = lbraceChar then
      match cs with
      | [] => none
      | d :: ds =>
        if d = rbraceChar then (if ds = [] then some ([] : LimitMap) else none)
        else
          match parseEntries cs.length cs with
          | some (es, []) => some es
          | _ => none
    else none

/-! ### The validation engine (src/unnamed/part_000, `run`) -/

/-- A cart line's merchandise: the source probes for an `id` field at
runtime (`"id" in merchandise`); here the two shapes are the two cases of
a tagged union.  A variant-backed item carries its variant identifier and
its product title (`merchandise.product.title`); other merchandise is
never limited. -/
inductive Merchandise where
  | variant (id : String) (productTitle : String)
  | other (productTitle : String)
deriving DecidableEq

/-- One line of the cart under validation. -/
structure CartLine where
  quantity : Nat
  merchandise : Merchandise
deriving DecidableEq

/-- The output record `run` pushes for an offending line. -/
structure ValidationError where
  localizedMessage : String
  target : String
deriving DecidableEq

/-- The display title: `merchandise.product.title || "Unknown product"`,
so an empty (falsy) title falls back to the fixed label. -/
def displayTitle (t : String) : String :=
  if t = "" then "Unknown product" else t

/-- The product title stored on either merchandise shape. -/
def titleOf : Merchandise → String
  | .variant _ t => t
  | .other t => t

/-- The error `run` pushes: the template string interpolates the requested
quantity and the display title, and the target is the whole cart. -/
def mkError (q : Nat) (t : String) : ValidationError :=
  { localizedMessage :=
      "Orders are limited to a maximum of " ++ Nat.repr q ++ " of " ++ displayTitle t,
    target := "cart" }

/-- The error the loop would push for a given line. -/
def errorFor (l : CartLine) : ValidationError :=
  mkError l.quantity (titleOf l.merchandise)

/-- One iteration of the `for` loop of `run`: the errors (zero or one)
contributed by a single cart line.  `configuration[merchandise.id] ??
Infinity` keeps a configured `0` (only `undefined` is replaced), and a
missing key means no quantity can exceed the limit. -/
def lineErrors (config : LimitMap) (l : CartLine) : List ValidationError :=
  match l.merchandise with
  | .variant vid _ =>
    match objLookup config vid with
    | some limit => if limit < l.quantity then [errorFor l] else []
    | none => []
  | .other _ => []

/-- The whole loop of `run`: errors pushed in cart-line order. -/
def evalLines (config : LimitMap) : List CartLine → List ValidationError
  | [] => []
  | l :: ls => lineErrors config l ++ evalLines config ls

/-- Whether the loop judges a line offending: variant-backed, configured,
and requested quantity strictly above the limit. -/
def offends (config : LimitMap) (l : CartLine) : Bool :=
  match l.merchandise with
  | .variant vid _ =>
    match objLookup config vid with
    | some limit => decide (limit < l.quantity)
    | none => false
  | .other _ => false

/-- The error message the modelled `JSON.parse` throw carries; the spec's
name for this condition is PersistencePayloadError. -/
def persistencePayloadError : String := "SyntaxError: unexpected token in JSON"

/-- The `run` function of the checkout validation (src/unnamed/part_000):
`JSON.parse(validation.metafield?.value ?? "\x7b\x7d")` followed by the
per-line loop.  An absent payload defaults to the empty-object text; a
payload the parser rejects makes `JSON.parse` throw, modelled as
`Except.error`. -/
def run (payload : Option String) (cart : List CartLine) :
    Except String (List ValidationError) :=
  match parseLimitMap (payload.getD "\x7b\x7d") with
  | some config => Except.ok (evalLines config cart)
  | none => Except.error persistencePayloadError

/-! ### The configuration store
(src/extensions/validation-settings/src/ValidationSettings.js) -/

/-- Read the persisted limits map:
`JSON.parse(api.data.validation?.metafields?.[0]?.value ?? "\x7b\x7d")`.
A missing payload defaults to the empty object; a present payload that
fails to parse throws (surfaced here as `Except.error`). -/
def loadLimitMap (payload : Option String) : Except String LimitMap :=
  match parseLimitMap (payload.getD "\x7b\x7d") with
  | some m => Except.ok m
  | none => Except.error persistencePayloadError

/-- Write the limits map (`onSave`): `JSON.stringify(settings)` replaces
the stored payload wholesale; the result is the new stored payload. -/
def saveLimitMap (m : LimitMap) : Option String :=
  some (stringifyLimitMap m)

/-- The persistence surface the extension sees: whether a metafield
definition for the fixed (namespace, key) pair exists, and the stored
payload of the record. -/
structure MetafieldStore where
  hasDefinition : Bool
  payload : Option String
deriving DecidableEq

/-- The metafield-definition bootstrap at the top of the extension
(ValidationSettings.js lines 17-24): query for an existing definition; only
when none is found, create one (which never touches the stored payload);
a failed creation throws "Failed to create metafield definition".  The
returned flag records whether a create was performed. -/
def ensureSchema (createOk : Bool) (s : MetafieldStore) :
    Except String (MetafieldStore × Bool) :=
  if s.hasDefinition then Except.ok (s, false)
  else if createOk then Except.ok ({ s with hasDefinition := true }, true)
  else Except.error "Failed to create metafield definition"

/-! ### The settings merge (`createSettings`) -/

/-- A catalog variant as fetched for the settings UI. -/
structure ProductVariant where
  id : String
  title : String
deriving DecidableEq

/-- A catalog product with its variants. -/
structure Product where
  title : String
  variants : List ProductVariant
deriving DecidableEq

/-- Whether the object already has a property with the given key. -/
def hasKey : LimitMap → String → Bool
  | [], _ => false
  | e :: rest, k => decide (e.1 = k) || hasKey rest k

/-- JavaScript property assignment `settings[id] = limit`: an existing
key keeps its position and takes the new value, a new key is appended. -/
def jsSet (m : LimitMap) (k : String) (v : Nat) : LimitMap :=
  if hasKey m k then m.map (fun e => if e.1 = k then (k, v) else e)
  else m ++ [(k, v)]

/-- The body of the inner `forEach` of `createSettings`:
`const limit = configuration[id]; if (limit) settings[id] = limit;` — the
truthiness test skips both an absent limit and a configured limit of 0. -/
def settingsStep (config : LimitMap) (s : LimitMap) (v : ProductVariant) : LimitMap :=
  match objLookup config v.id with
  | some limit => if limit = 0 then s else jsSet s v.id limit
  | none => s

/-- The inner `forEach` over one product's variants. -/
def addVariants (config : LimitMap) : LimitMap → List ProductVariant → LimitMap
  | s, [] => s
  | s, v :: vs => addVariants config (settingsStep config s v) vs

/-- The outer `forEach` over the fetched products. -/
def createSettingsAux (config : LimitMap) : LimitMap → List Product → LimitMap
  | s, [] => s
  | s, p :: ps => createSettingsAux config (addVariants config s p.variants) ps

/-- `createSettings(products, configuration)`: starting from an empty
object, visit every catalog variant and copy its persisted limit when that
limit is truthy. -/
def createSettings (products : List Product) (config : LimitMap) : LimitMap :=
  createSettingsAux config [] products

/-- The working limit the truthy copy produces for an identifier: the
persisted value when present and non-zero, nothing otherwise. -/
def workingLimit (config : LimitMap) (id : String) : Option Nat :=
  match objLookup config id with
  | some l => if l = 0 then none else some l
  | none => none

/-- Whether any fetched product has a variant with the given identifier. -/
def catalogHas (products : List Product) (id : String) : Bool :=
  products.any (fun p => p.variants.any (fun v => decide (v.id = id)))

/-! ### Helper lemmas: decimal digits -/

/-- Value of a least-significant-first digit list. -/
def valRev : List Char → Nat
  | [] => 0
  | c :: cs => (c.toNat - 48) + 10 * valRev cs

theorem digChar_toNat {d : Nat} (hd : d < 10) : (digChar d).toNat = 48 + d := by
  have h : ∀ x : Fin 10, (digChar x.val).toNat = 48 + x.val := by decide
  exact h ⟨d, hd⟩

theorem isDigitChar_digChar {d : Nat} (hd : d < 10) : isDigitChar (digChar d) = true := by
  have h : ∀ x : Fin 10, isDigitChar (digChar x.val) = true := by decide
  exact h ⟨d, hd⟩

theorem valRev_natToDigitsRevAux :
    ∀ (fuel n : Nat), n ≤ fuel → valRev (natToDigitsRevAux fuel n) = n := by
  intro fuel
  induction fuel with
  | zero =>
    intro n hn
    interval_cases n
    simp [natToDigitsRevAux, valRev]
  | succ fuel ih =>
    intro n hn
    match n with
    | 0 => simp [natToDigitsRevAux, valRev]
    | m + 1 =>
      have hdiv : (m + 1) / 10 ≤ fuel := by
        have := Nat.div_lt_self (Nat.succ_pos m) (show 1 < 10 by decide)
        omega
      have hmod : (m + 1) % 10 < 10 := Nat.mod_lt _ (by decide)
      simp only [natToDigitsRevAux, valRev, ih _ hdiv, digChar_toNat hmod]
      omega

theorem mem_natToDigitsRevAux_digit :
    ∀ (fuel n : Nat) (c : Char), c ∈ natToDigitsRevAux fuel n → isDigitChar c = true := by
  intro fuel
  induction fuel with
  | zero => intro n c hc; simp [natToDigitsRevAux] at hc
  | succ fuel ih =>
    intro n c hc
    match n with
    | 0 => simp [natToDigitsRevAux] at hc
    | m + 1 =>
      simp only [natToDigitsRevAux, List.mem_cons] at hc
      rcases hc with hc | hc
      · subst hc
        exact isDigitChar_digChar (Nat.mod_lt _ (by decide))
      · exact ih _ _ hc

theorem digitsToNat_reverse : ∀ l : List Char, digitsToNat l.reverse = valRev l := by
  intro l
  induction l with
  | nil => rfl
  | cons c cs ih =>
    simp only [digitsToNat, List.reverse_cons, List.foldl_append, List.foldl_cons,
      List.foldl_nil] at *
    simp only [valRev, ← ih]
    omega

theorem digitsToNat_natToDigits (n : Nat) : digitsToNat (natToDigits n) = n := by
  unfold natToDigits
  by_cases h : n = 0
  · subst h; decide
  · simp only [h, if_false]
    rw [digitsToNat_reverse]
    exact valRev_natToDigitsRevAux n n (Nat.le_refl n)

theorem natToDigits_digit {n : Nat} {c : Char} (hc : c ∈ natToDigits n) :
    isDigitChar c = true := by
  unfold natToDigits at hc
  by_cases h : n = 0
  · subst h; simp at hc; subst hc; decide
  · simp only [h, if_false, List.mem_reverse] at hc
    exact mem_natToDigitsRevAux_digit n n c hc

theorem natToDigits_ne_nil (n : Nat) : natToDigits n ≠ [] := by
  unfold natToDigits
  by_cases h : n = 0
  · subst h; decide
  · simp only [h, if_false]
    match n, h with
    | m + 1, _ => simp [natToDigitsRev, natToDigitsRevAux]

/-- The next character of the input is not a digit (vacuous for empty
input); this is the shape of the rest of a payload after a number. -/
def headNotDigit (cs : List Char) : Prop :=
  ∀ c, cs.head? = some c → isDigitChar c = false

theorem takeDigits_append :
    ∀ (ds rest : List Char), (∀ c ∈ ds, isDigitChar c = true) → headNotDigit rest →
      takeDigits (ds ++ rest) = (ds, rest) := by
  intro ds
  induction ds with
  | nil =>
    intro rest _ hrest
    match rest with
    | [] => rfl
    | c :: cs =>
      have : isDigitChar c = false := hrest c rfl
      simp [takeDigits, this]
  | cons d ds ih =>
    intro rest hds hrest
    have hd : isDigitChar d = true := hds d (List.mem_cons_self d ds)
    have hds' : ∀ c ∈ ds, isDigitChar c = true := fun c hc => hds c (List.mem_cons_of_mem d hc)
    simp [takeDigits, hd, ih rest hds' hrest]

theorem parseNatNum_natToDigits (n : Nat) (rest : List Char) (hrest : headNotDigit rest) :
    parseNatNum (natToDigits n ++ rest) = some (n, rest) := by
  unfold parseNatNum
  rw [takeDigits_append (natToDigits n) rest (fun c hc => natToDigits_digit hc) hrest]
  match hne : natToDigits n, natToDigits_ne_nil n with
  | d :: ds, _ =>
    simp only []
    rw [← hne, digitsToNat_natToDigits]

/-! ### Helper lemmas: keys and entries -/

theorem parseKeyAux_quote (acc rest : List Char) :
    parseKeyAux acc (quoteChar :: rest) = some (String.mk acc.reverse, rest) := by
  rw [parseKeyAux.eq_def]
  simp

theorem parseKeyAux_escaped (e : Char) (acc cs2 : List Char) (h : e = quoteChar ∨ e = backslashChar) :
    parseKeyAux acc (backslashChar :: e :: cs2) = parseKeyAux (e :: acc) cs2 := by
  rw [parseKeyAux.eq_def]
  rcases h with h | h <;> subst h <;> simp [quoteChar, backslashChar]

theorem parseKeyAux_plain (c : Char) (acc cs : List Char) (h1 : c ≠ quoteChar) (h2 : c ≠ backslashChar) :
    parseKeyAux acc (c :: cs) = parseKeyAux (c :: acc) cs := by
  rw [parseKeyAux.eq_def]
  simp [h1, h2]

theorem parseKeyAux_escape :
    ∀ (ks acc rest : List Char),
      parseKeyAux acc (escapeList ks ++ quoteChar :: rest) =
        some (String.mk (acc.reverse ++ ks), rest) := by
  intro ks
  induction ks with
  | nil =>
    intro acc rest
    simp only [escapeList, List.nil_append, parseKeyAux_quote, List.append_nil]
  | cons c ks ih =>
    intro acc rest
    by_cases h : c = quoteChar ∨ c = backslashChar
    · have hesc : escapeChar c = [backslashChar, c] := by simp [escapeChar, h]
      simp only [escapeList, hesc, List.cons_append, List.nil_append]
      rw [parseKeyAux_escaped c acc _ h, ih (c :: acc) rest]
      simp
    · push_neg at h
      have hesc : escapeChar c = [c] := by simp [escapeChar, h.1, h.2]
      simp only [escapeList, hesc, List.cons_append, List.nil_append]
      rw [parseKeyAux_plain c acc _ h.1 h.2, ih (c :: acc) rest]
      simp

theorem string_mk_data (s : String) : String.mk s.data = s := rfl

theorem parseEntries_entry (k : String) (n : Nat) (tail : List Char) (fuel : Nat)
    (htail : headNotDigit tail) :
    parseEntries (fuel + 1) (entryChars k n ++ tail) =
      match tail with
      | [] => none
      | c4 :: cs5 =>
        if c4 = ',' then
          match parseEntries fuel cs5 with
          | some (es, rest) => some ((k, n) :: es, rest)
          | none => none
        else if c4 = rbraceChar then some ([(k, n)], cs5)
        else none := by
  have hshape : entryChars k n ++ tail =
      quoteChar :: (escapeList k.data ++ quoteChar :: (':' :: (natToDigits n ++ tail))) := by
    simp [entryChars]
  rw [hshape]
  rw [parseEntries.eq_def]
  simp only [if_true]
  rw [parseKeyAux_escape k.data [] (':' :: (natToDigits n ++ tail))]
  simp only [List.reverse_nil, List.nil_append, string_mk_data]
  simp only [if_true]
  rw [parseNatNum_natToDigits n tail htail]
  cases tail <;> rfl

theorem headNotDigit_rbrace : headNotDigit [rbraceChar] := by
  intro c hc
  simp only [List.head?] at hc
  cases hc
  decide

theorem headNotDigit_comma (cs : List Char) : headNotDigit (',' :: cs) := by
  intro c hc
  simp only [List.head?] at hc
  cases hc
  decide

theorem parseEntries_stringify :
    ∀ (es : LimitMap) (fuel : Nat), es ≠ [] → es.length ≤ fuel →
      parseEntries fuel (stringifyEntries es ++ [rbraceChar]) = some (es, []) := by
  intro es
  induction es with
  | nil => intro fuel h _; exact absurd rfl h
  | cons e tl ih =>
    intro fuel _ hlen
    cases fuel with
    | zero => simp only [List.length_cons] at hlen; omega
    | succ f =>
      match tl with
      | [] =>
        rcases e with ⟨k, n⟩
        show parseEntries (f + 1) (entryChars k n ++ [rbraceChar]) = _
        rw [parseEntries_entry k n [rbraceChar] f headNotDigit_rbrace]
        dsimp only
        rw [if_neg (by decide : ¬(rbraceChar = ',')), if_pos rfl]
      | e2 :: tl2 =>
        rcases e with ⟨k, n⟩
        have hlen2 : (e2 :: tl2).length ≤ f := by
          simp only [List.length_cons] at hlen ⊢
          omega
        show parseEntries (f + 1)
          ((entryChars k n ++ ',' :: stringifyEntries (e2 :: tl2)) ++ [rbraceChar]) = _
        rw [List.append_assoc, List.cons_append]
        rw [parseEntries_entry k n (',' :: (stringifyEntries (e2 :: tl2) ++ [rbraceChar])) f
          (headNotDigit_comma _)]
        simp only [if_true]
        rw [ih f (by simp) hlen2]

theorem stringifyEntries_cons (k : String) (n : Nat) (es : LimitMap) :
    ∃ t, stringifyEntries ((k, n) :: es) = quoteChar :: t := by
  match es with
  | [] => exact ⟨_, rfl⟩
  | e2 :: tl2 => exact ⟨_, rfl⟩

theorem length_le_stringifyEntries :
    ∀ es : LimitMap, es.length ≤ (stringifyEntries es).length := by
  intro es
  induction es with
  | nil => simp [stringifyEntries]
  | cons e tl ih =>
    rcases e with ⟨k, n⟩
    match tl with
    | [] => simp [stringifyEntries, entryChars]
    | e2 :: tl2 =>
      show (e2 :: tl2).length + 1 ≤ (entryChars k n ++ ',' :: stringifyEntries (e2 :: tl2)).length
      simp only [List.length_append, List.length_cons, entryChars] at ih ⊢
      omega

theorem parseLimitMap_stringify (m : LimitMap) :
    parseLimitMap (stringifyLimitMap m) = some m := by
  match m with
  | [] => decide
  | (k, n) :: es =>
    obtain ⟨t, ht⟩ := stringifyEntries_cons k n es
    have hlen : ((k, n) :: es).length ≤ (stringifyEntries ((k, n) :: es) ++ [rbraceChar]).length := by
      have h := length_le_stringifyEntries ((k, n) :: es)
      simp only [List.length_append, List.length_cons] at h ⊢
      omega
    have hparse := parseEntries_stringify ((k, n) :: es) _ (by simp) hlen
    show parseLimitMap (String.mk (lbraceChar :: (stringifyEntries ((k, n) :: es) ++ [rbraceChar]))) = _
    rw [parseLimitMap.eq_def]
    simp only [string_mk_data, if_true]
    rw [ht] at hparse ⊢
    simp only [List.cons_append] at hparse ⊢
    rw [if_neg (by decide : ¬(quoteChar = rbraceChar))]
    rw [hparse]
/-! ### Helper lemmas: the engine loop -/

theorem lineErrors_eq (config : LimitMap) (l : CartLine) :
    lineErrors config l = if offends config l then [errorFor l] else [] := by
  rcases l with ⟨q, m⟩
  cases m with
  | variant vid t =>
    rcases hob : objLookup config vid with _ | limit
    · simp [lineErrors, offends, hob]
    · by_cases h : limit < q <;> simp [lineErrors, offends, hob, h]
  | other t => simp [lineErrors, offends]

theorem evalLines_filterMap (config : LimitMap) (cart : List CartLine) :
    evalLines config cart = (cart.filter (offends config)).map errorFor := by
  induction cart with
  | nil => rfl
  | cons l ls ih =>
    simp only [evalLines, lineErrors_eq, List.filter_cons, ih]
    by_cases h : offends config l <;> simp [h]

theorem evalLines_append (config : LimitMap) (a b : List CartLine) :
    evalLines config (a ++ b) = evalLines config a ++ evalLines config b := by
  induction a with
  | nil => rfl
  | cons l ls ih => simp [evalLines, ih]

/-! ### Helper lemmas: the settings merge -/

theorem objLookup_append (m m2 : LimitMap) (id : String) :
    objLookup (m ++ m2) id =
      match objLookup m2 id with
      | some v => some v
      | none => objLookup m id := by
  induction m with
  | nil =>
    simp only [List.nil_append, objLookup]
    cases objLookup m2 id <;> rfl
  | cons e rest ih =>
    simp only [List.cons_append, objLookup, List.append_eq, ih]
    cases objLookup m2 id <;> cases objLookup rest id <;> rfl

theorem objLookup_map_set (m : LimitMap) (k : String) (v : Nat) (id : String) :
    objLookup (m.map (fun e => if e.1 = k then (k, v) else e)) id =
      if id = k then (if hasKey m k then some v else none) else objLookup m id := by
  induction m with
  | nil => simp [objLookup, hasKey]
  | cons e rest ih =>
    simp only [List.map_cons, objLookup, ih, hasKey]
    by_cases hik : id = k
    · rw [if_pos hik, if_pos hik]
      by_cases hr : hasKey rest k = true
      · rw [if_pos hr]
        simp [hr]
      · rw [if_neg hr]
        by_cases he : e.1 = k
        · simp only [Bool.not_eq_true] at hr
          simp [he, hr, hik]
        · simp only [Bool.not_eq_true] at hr
          simp [he, hr, hik]
    · rw [if_neg hik, if_neg hik]
      have hkid : ¬(k = id) := fun h => hik h.symm
      have h4 : (if (if e.1 = k then (k, v) else e).1 = id
            then some (if e.1 = k then (k, v) else e).2 else none)
          = (if e.1 = id then some e.2 else none) := by
        by_cases he : e.1 = k
        · simp [he, hkid]
        · simp [he]
      rw [h4]

theorem objLookup_jsSet (m : LimitMap) (k : String) (v : Nat) (id : String) :
    objLookup (jsSet m k v) id = if id = k then some v else objLookup m id := by
  unfold jsSet
  by_cases hk : hasKey m k = true
  · rw [if_pos hk, objLookup_map_set]
    by_cases hik : id = k
    · simp [hik, hk]
    · simp [hik]
  · rw [if_neg hk, objLookup_append]
    by_cases hik : id = k
    · subst hik
      simp [objLookup]
    · have hkid : ¬(k = id) := fun h => hik h.symm
      simp [objLookup, hik, hkid]
theorem objLookup_settingsStep (config s : LimitMap) (v : ProductVariant) (id : String) :
    objLookup (settingsStep config s v) id =
      if v.id = id then
        (match workingLimit config id with
          | some l => some l
          | none => objLookup s id)
      else objLookup s id := by
  unfold settingsStep workingLimit
  by_cases hv : v.id = id
  · subst hv
    cases hc : objLookup config v.id with
    | none => simp
    | some limit =>
      by_cases h0 : limit = 0
      · simp [h0]
      · simp [h0, objLookup_jsSet]
  · cases hc : objLookup config v.id with
    | none => simp [hv]
    | some limit =>
      by_cases h0 : limit = 0
      · simp [h0, hv]
      · have hiv : ¬(id = v.id) := fun h => hv h.symm
        simp [h0, hv, objLookup_jsSet, hiv]

theorem objLookup_addVariants (config : LimitMap) (id : String) :
    ∀ (vs : List ProductVariant) (s : LimitMap),
      objLookup (addVariants config s vs) id =
        if vs.any (fun v => decide (v.id = id)) then
          (match workingLimit config id with
            | some l => some l
            | none => objLookup s id)
        else objLookup s id := by
  intro vs
  induction vs with
  | nil => intro s; simp [addVariants]
  | cons v vs ih =>
    intro s
    simp only [addVariants, ih, List.any_cons, objLookup_settingsStep]
    by_cases hv : v.id = id <;>
      by_cases hrest : (vs.any fun v => decide (v.id = id)) = true <;>
        cases workingLimit config id <;> simp [hv, hrest]

theorem objLookup_createSettingsAux (config : LimitMap) (id : String) :
    ∀ (ps : List Product) (s : LimitMap),
      objLookup (createSettingsAux config s ps) id =
        if ps.any (fun p => p.variants.any (fun v => decide (v.id = id))) then
          (match workingLimit config id with
            | some l => some l
            | none => objLookup s id)
        else objLookup s id := by
  intro ps
  induction ps with
  | nil => intro s; simp [createSettingsAux]
  | cons p ps ih =>
    intro s
    simp only [createSettingsAux, ih, List.any_cons, objLookup_addVariants]
    by_cases hp : (p.variants.any fun v => decide (v.id = id)) = true <;>
      by_cases hrest : (ps.any fun p => p.variants.any fun v => decide (v.id = id)) = true <;>
        cases workingLimit config id <;> simp [hp, hrest]

theorem objLookup_createSettings (products : List Product) (config : LimitMap) (id : String) :
    objLookup (createSettings products config) id =
      if catalogHas products id then workingLimit config id else none := by
  unfold createSettings catalogHas
  rw [objLookup_createSettingsAux]
  by_cases h : products.any (fun p => p.variants.any (fun v => decide (v.id = id))) = true
  · simp only [h, if_true]
    cases workingLimit config id <;> simp [objLookup]
  · simp [h, objLookup]
/-! ### Statements from the specification -/

/-- A cart line the specification calls valid: not variant-backed, or its
variant is absent from the limit map (unbounded), or its requested
quantity is at most the configured limit. -/
def withinLimit (config : LimitMap) (l : CartLine) : Prop :=
  match l.merchandise with
  | Merchandise.other _ => True
  | Merchandise.variant vid _ =>
    match objLookup config vid with
    | none => True
    | some limit => l.quantity ≤ limit

theorem withinLimit_iff (config : LimitMap) (l : CartLine) :
    withinLimit config l ↔ offends config l = false := by
  rcases l with ⟨q, m⟩
  cases m with
  | other t => simp [withinLimit, offends]
  | variant vid t =>
    rcases hob : objLookup config vid with _ | limit
    · simp [withinLimit, offends, hob]
    · simp [withinLimit, offends, hob, Nat.not_lt]

instance instDecidableWithinLimit (config : LimitMap) (l : CartLine) :
    Decidable (withinLimit config l) :=
  decidable_of_iff _ (withinLimit_iff config l).symm

theorem offends_eq_false_of_withinLimit {config : LimitMap} {l : CartLine}
    (h : withinLimit config l) : offends config l = false :=
  (withinLimit_iff config l).mp h

/-- Shared helper: the write-then-read round trip of the store. -/
theorem loadLimitMap_saveLimitMap (m : LimitMap) :
    loadLimitMap (saveLimitMap m) = Except.ok m := by
  unfold loadLimitMap saveLimitMap
  simp only [Option.getD_some]
  rw [parseLimitMap_stringify]
/-! ### The claims -/

/-- C1: for every cart and limit map, the engine loop emits, in the cart's
original line order, exactly one error per variant-backed line whose
requested quantity exceeds its configured limit (`offends`), each line
judged independently; the error's message is the template interpolating
the requested quantity and the display title (with the "Unknown product"
fallback for an empty title), and its target is the whole cart. -/
theorem c1_evaluate_offending_lines (config : LimitMap) (cart : List CartLine) :
    evalLines config cart =
      (cart.filter (offends config)).map
        (fun l =>
          { localizedMessage :=
              "Orders are limited to a maximum of " ++ Nat.repr l.quantity ++ " of " ++
                displayTitle (titleOf l.merchandise),
            target := "cart" }) := by
  rw [evalLines_filterMap]
  rfl

/-- C2 (counterexample): the claim says a stored payload that is not valid
JSON does not cause `run` to fail; but on the payload `not-json` the
`JSON.parse` call at the top of `run` throws, so `run` fails. -/
theorem c2_counterexample :
    run (some "not-json") [⟨2, Merchandise.variant "gid://variant/1" "Blue Shirt"⟩] =
      Except.error persistencePayloadError := rfl

/-- C2 (amended): `run` is pure and total on every input whose stored
payload is absent (degrading to the empty map, so no limits apply) or
parses as a limit map; only a present payload that fails to parse makes
`run` fail instead of degrading to "no limit". -/
theorem c2_amended_run_total_on_parsable (payload : Option String) (cart : List CartLine) :
    (payload = none → run payload cart = Except.ok (evalLines [] cart)) ∧
    (∀ config : LimitMap, parseLimitMap (payload.getD "\x7b\x7d") = some config →
      run payload cart = Except.ok (evalLines config cart)) := by
  constructor
  · intro h
    subst h
    have hp : parseLimitMap ((none : Option String).getD "\x7b\x7d") = some [] := by decide
    unfold run
    rw [hp]
  · intro config h
    unfold run
    rw [h]

/-- C2 (witness): `run` succeeds on the serialized map with variant 1
limited to 3 against a cart requesting 5. -/
theorem c2_witness :
    run (some (stringifyLimitMap [("gid://variant/1", 3)]))
        [⟨5, Merchandise.variant "gid://variant/1" "Blue Shirt"⟩] =
      Except.ok (evalLines [("gid://variant/1", 3)]
        [⟨5, Merchandise.variant "gid://variant/1" "Blue Shirt"⟩]) :=
  (c2_amended_run_total_on_parsable
    (some (stringifyLimitMap [("gid://variant/1", 3)]))
    [⟨5, Merchandise.variant "gid://variant/1" "Blue Shirt"⟩]).2
    [("gid://variant/1", 3)] (by decide)

/-- C3: a cart in which every line is non-variant, or unconfigured, or
within its configured limit produces no errors. -/
theorem c3_within_limits_no_errors (config : LimitMap) (cart : List CartLine)
    (h : ∀ l ∈ cart, withinLimit config l) : evalLines config cart = [] := by
  rw [evalLines_filterMap]
  have : cart.filter (offends config) = [] := by
    rw [List.filter_eq_nil_iff]
    intro l hl
    rw [offends_eq_false_of_withinLimit (h l hl)]
    simp
  rw [this]
  rfl

/-- C3 (witness): a gift line, an unconfigured variant at quantity 1000,
and a configured variant at its exact limit yield no errors. -/
theorem c3_witness :
    evalLines [("gid://variant/1", 3)]
      [⟨5, Merchandise.other "Gift card"⟩,
       ⟨1000, Merchandise.variant "gid://variant/9" "Hat"⟩,
       ⟨3, Merchandise.variant "gid://variant/1" "Blue Shirt"⟩] = [] :=
  c3_within_limits_no_errors [("gid://variant/1", 3)] _ (by decide)

/-- C4: a configured limit of 0 blocks any purchase: a variant-backed line
with limit 0 and quantity at least 1 contributes exactly one error,
wherever it sits in the cart. -/
theorem c4_zero_limit_blocks (config : LimitMap) (vid t : String) (q : Nat)
    (pre post : List CartLine)
    (hlim : objLookup config vid = some 0) (hq : 1 ≤ q) :
    evalLines config (pre ++ ⟨q, Merchandise.variant vid t⟩ :: post) =
      evalLines config pre ++
        errorFor ⟨q, Merchandise.variant vid t⟩ :: evalLines config post := by
  rw [evalLines_append]
  have hlt : 0 < q := hq
  simp [evalLines, lineErrors, hlim, hlt]

/-- C4 (witness): the spec scenario — limit 0 for variant 2, quantity 1
gives exactly the one error for that line. -/
theorem c4_witness :
    evalLines [("gid://variant/2", 0)] [⟨1, Merchandise.variant "gid://variant/2" "Tee"⟩] =
      [errorFor ⟨1, Merchandise.variant "gid://variant/2" "Tee"⟩] := by
  have h := c4_zero_limit_blocks [("gid://variant/2", 0)] "gid://variant/2" "Tee" 1 [] []
    (by decide) (by decide)
  simpa [evalLines] using h

/-- C5: a line whose merchandise is not variant-backed never contributes
an error, regardless of its quantity: the cart's errors are exactly those
of the other lines. -/
theorem c5_non_variant_skipped (config : LimitMap) (q : Nat) (t : String)
    (pre post : List CartLine) :
    evalLines config (pre ++ ⟨q, Merchandise.other t⟩ :: post) =
      evalLines config pre ++ evalLines config post := by
  rw [evalLines_append]
  simp [evalLines, lineErrors]

/-- C6: the store round trip — serializing a limit map wholesale
(`saveLimitMap`) and parsing the stored payload back (`loadLimitMap`)
returns a map equal to the original. -/
theorem c6_save_load_roundtrip (m : LimitMap) :
    loadLimitMap (saveLimitMap m) = Except.ok m :=
  loadLimitMap_saveLimitMap m

/-- C7: the metafield-definition bootstrap is idempotent — when a
definition already exists it is a no-op that performs no create and leaves
the stored payload untouched; only when none exists is one created
(again leaving the payload untouched). -/
theorem c7_ensureSchema_idempotent (s : MetafieldStore) (createOk : Bool) :
    (s.hasDefinition = true → ensureSchema createOk s = Except.ok (s, false)) ∧
    (s.hasDefinition = false → createOk = true →
      ensureSchema createOk s =
        Except.ok ({ hasDefinition := true, payload := s.payload }, true)) := by
  constructor
  · intro h
    simp [ensureSchema, h]
  · intro h hc
    subst hc
    simp [ensureSchema, h]

/-- C7 (witness): with a definition already present the call is a no-op
preserving the payload; with none present a definition is created. -/
theorem c7_witness :
    ensureSchema true ⟨true, some "payload"⟩ = Except.ok (⟨true, some "payload"⟩, false) ∧
    ensureSchema true ⟨false, none⟩ = Except.ok (⟨true, none⟩, true) :=
  ⟨(c7_ensureSchema_idempotent ⟨true, some "payload"⟩ true).1 rfl,
   (c7_ensureSchema_idempotent ⟨false, none⟩ true).2 rfl rfl⟩

/-- C8: `loadLimitMap` returns the empty map when the stored payload is
absent, but a present payload that is not valid JSON surfaces an error
(the spec's PersistencePayloadError) instead of being coerced to the
empty map. -/
theorem c8_load_missing_vs_malformed :
    loadLimitMap none = Except.ok ([] : LimitMap) ∧
    ∀ s : String, parseLimitMap s = none →
      loadLimitMap (some s) = Except.error persistencePayloadError := by
  constructor
  · rfl
  · intro s h
    unfold loadLimitMap
    rw [Option.getD_some, h]

/-- C8 (witness): the spec scenario — the malformed payload `not-json`
surfaces the error rather than an empty map. -/
theorem c8_witness :
    loadLimitMap (some "not-json") = Except.error persistencePayloadError :=
  c8_load_missing_vs_malformed.2 "not-json" (by decide)

/-- C9 (counterexample): the claim includes a persisted value of 0 among
the working limits, but the truthy `if (limit)` in `createSettings` drops
a persisted 0: the catalog variant with persisted limit 0 gets no working
limit. -/
theorem c9_counterexample :
    objLookup [("gid://variant/2", 0)] "gid://variant/2" = some 0 ∧
    objLookup (createSettings [⟨"Shirt", [⟨"gid://variant/2", "Small"⟩]⟩]
      [("gid://variant/2", 0)]) "gid://variant/2" ≠ some 0 := by
  decide

/-- C9 (amended): each catalog variant's working limit is the persisted
value whenever present and non-zero; a persisted 0 is dropped (the variant
is left unconfigured), and variants never configured — or absent from the
fetched catalog — get no working limit. -/
theorem c9_amended_merge_policy (products : List Product) (config : LimitMap) (id : String) :
    objLookup (createSettings products config) id =
      if catalogHas products id then workingLimit config id else none :=
  objLookup_createSettings products config id

/-- C10 (counterexample): load-then-save is not additive: with a persisted
entry for variant 1 and a fetched catalog that no longer contains it, the
wholesale save persists the empty map, removing the entry. -/
theorem c10_counterexample :
    loadLimitMap (saveLimitMap (createSettings [] [("gid://variant/1", 3)])) =
      Except.ok ([] : LimitMap) ∧
    objLookup [("gid://variant/1", 3)] "gid://variant/1" = some 3 :=
  ⟨rfl, by decide⟩

/-- C10 (amended): load-then-save preserves exactly the persisted entries
whose variant is still in the fetched catalog and whose limit is non-zero;
such an entry survives the round trip with its value intact. -/
theorem c10_amended_preserved_only_in_catalog (products : List Product) (m : LimitMap)
    (id : String) (l : Nat)
    (hm : objLookup m id = some l) (hl : l ≠ 0) (hcat : catalogHas products id = true) :
    loadLimitMap (saveLimitMap (createSettings products m)) =
      Except.ok (createSettings products m) ∧
    objLookup (createSettings products m) id = some l := by
  constructor
  · exact loadLimitMap_saveLimitMap (createSettings products m)
  · rw [objLookup_createSettings, if_pos hcat]
    unfold workingLimit
    rw [hm]
    simp [hl]

/-- C10 (witness): a persisted limit of 3 for variant 1, with that variant
still in the catalog, survives the load-save round trip. -/
theorem c10_witness :
    loadLimitMap (saveLimitMap (createSettings [⟨"Shirt", [⟨"gid://variant/1", "Small"⟩]⟩]
        [("gid://variant/1", 3)])) =
      Except.ok (createSettings [⟨"Shirt", [⟨"gid://variant/1", "Small"⟩]⟩]
        [("gid://variant/1", 3)]) ∧
    objLookup (createSettings [⟨"Shirt", [⟨"gid://variant/1", "Small"⟩]⟩]
      [("gid://variant/1", 3)]) "gid://variant/1" = some 3 :=
  c10_amended_preserved_only_in_catalog [⟨"Shirt", [⟨"gid://variant/1", "Small"⟩]⟩]
    [("gid://variant/1", 3)] "gid://variant/1" 3 (by decide) (by decide) (by decide)
end CartValidation
